import Mathlib

/-!
# Verification of the NFSe layout positioning engine

Shallow embedding of `src/pdf/nfse/layout_refactored.py` (`PositionManager`)
and the relevant accessors of `src/pdf/nfse/layout.py` (`Layout`), over exact
rational arithmetic.  The position table of the Python code is a dict
`{section: {x, y, height}}`; we model it as an association list
`List (String × SectionPos)` preserving insertion order, as Python dicts do.
-/

namespace Nfse

/-- Conversion factor, `PX_TO_MM = 210 / 595` in the source. -/
def PX_TO_MM : ℚ := 210 / 595

/-- `BASE_HEIGHT = 40.0 * PX_TO_MM` in the source. -/
def BASE_HEIGHT : ℚ := 40 * PX_TO_MM

/-- `SVG_OFFSET_Y = 65` in the source. -/
def SVG_OFFSET_Y : ℚ := 65

/-- `ORDEM_SECOES` of `layout_refactored.py`: the fixed stacking order. -/
def ORDEM_SECOES : List String :=
  ["info_nota", "emitente", "tomador", "intermediario",
   "servico", "tb_municipal", "trib_federal", "valor_nfse",
   "totais", "info_complementar"]

/-- `SVG_HEIGHTS_ALL` of `layout_refactored.py`. -/
def SVG_HEIGHTS_ALL : List (String × ℚ) :=
  [("info_nota", 80), ("emitente", 90), ("tomador", 80), ("intermediario", 75),
   ("servico", 75), ("tb_municipal", 110), ("trib_federal", 70),
   ("valor_nfse", 60), ("totais", 40), ("info_complementar", 50)]

/-- Dict access `SVG_HEIGHTS_ALL[section]` (only used on present keys). -/
def svgHeight (s : String) : ℚ := (SVG_HEIGHTS_ALL.lookup s).getD 0

/-- `_svg_to_pdf_y(svg_y, top_margin)` of `layout_refactored.py`. -/
def svg_to_pdf_y (svg_y top_margin : ℚ) : ℚ :=
  top_margin + (svg_y - SVG_OFFSET_Y) * PX_TO_MM

/-- `_pdf_to_svg_y(pdf_y, top_margin)` of `layout_refactored.py`. -/
def pdf_to_svg_y (pdf_y top_margin : ℚ) : ℚ :=
  SVG_OFFSET_Y + (pdf_y - top_margin) / PX_TO_MM

/-- One `{x, y, height}` record of the positions dict. -/
structure SectionPos where
  x : ℚ
  y : ℚ
  height : ℚ
deriving DecidableEq, Repr

/-- The positions dict: insertion-ordered association list. -/
abbrev Table := List (String × SectionPos)

/-- Dict read `positions[s]['y']` (0 as junk default; only used on present keys
outside of the explicit not-found modelling). -/
def yOf (ps : Table) (s : String) : ℚ := ((ps.lookup s).map SectionPos.y).getD 0

/-- Dict read `positions[s]['height']`. -/
def hOf (ps : Table) (s : String) : ℚ :=
  ((ps.lookup s).map SectionPos.height).getD 0

/-- Dict read `positions[s]['x']`. -/
def xOf (ps : Table) (s : String) : ℚ := ((ps.lookup s).map SectionPos.x).getD 0

/-- `base_position = 100.0` in `_create_general_layout`. -/
def base_position : ℚ := 100

/-- `base_height = 80.0` in `_create_general_layout`. -/
def base_height : ℚ := 80

/-- The `for i, section in enumerate(ORDEM_SECOES)` loop of
`_create_general_layout` for `i ≥ 1`: each section is placed at the running
`next_y`, with `BASE_HEIGHT` when excluded and its `SVG_HEIGHTS_ALL` height
otherwise. -/
def stackSections (left_margin : ℚ) (exclude_sections : List String) :
    List String → ℚ → Table
  | [], _ => []
  | s :: rest, next_y =>
    let height := if s ∈ exclude_sections then BASE_HEIGHT else svgHeight s
    (s, ⟨left_margin, next_y, height⟩) ::
      stackSections left_margin exclude_sections rest (next_y + height)

/-- The whole loop of `_create_general_layout`: the `i == 0` branch places the
first section at `base_position` with `base_height` (ignoring the exclusion
list), then the remaining sections are stacked. -/
def generalLayoutPx (left_margin : ℚ) (exclude_sections : List String) : Table :=
  match ORDEM_SECOES with
  | [] => []
  | s0 :: rest =>
    (s0, ⟨left_margin, base_position, base_height⟩) ::
      stackSections left_margin exclude_sections rest (base_position + base_height)

/-- The final conversion loop of `_create_general_layout`: every `y` goes
through `_svg_to_pdf_y`; every `height` except the header's is scaled by
`PX_TO_MM`. -/
def convertEntry (top_margin : ℚ) (e : String × SectionPos) : String × SectionPos :=
  (e.1, ⟨e.2.x, svg_to_pdf_y e.2.y top_margin,
         if e.1 = "header" then e.2.height else e.2.height * PX_TO_MM⟩)

/-- `PositionManager.calculate_positions` /
`PositionManager._create_general_layout`: build the px-space stack, back-fill
the `header` entry (`header_height = positions["info_nota"]["y"] * PX_TO_MM`,
read before conversion; `y = top_margin`), then run the conversion loop over
every entry, header included. -/
def calculate_positions (top_margin left_margin : ℚ)
    (exclude_sections : List String) : Table :=
  let ps := generalLayoutPx left_margin exclude_sections
  let header_height := (yOf ps "info_nota" - 0) * PX_TO_MM
  let withHeader := ps ++ [("header", ⟨left_margin, top_margin, header_height⟩)]
  withHeader.map (convertEntry top_margin)

/-- Python's `list.index`: position of the first occurrence, failure when
absent (`ValueError`, modelled as `none`). -/
def listIndex (s : String) : List String → Option Nat
  | [] => none
  | n :: rest => if n = s then some 0 else (listIndex s rest).map (· + 1)

/-- Dict write `positions[s]['y'] = y`. -/
def setY (ps : Table) (s : String) (y : ℚ) : Table :=
  ps.map fun e => if e.1 = s then (e.1, ⟨e.2.x, y, e.2.height⟩) else e

/-- Dict write `positions[s]['height'] = h`. -/
def setHeight (ps : Table) (s : String) (h : ℚ) : Table :=
  ps.map fun e => if e.1 = s then (e.1, ⟨e.2.x, e.2.y, h⟩) else e

/-- The cascade loop of `_recalculate_positions`: each following section's `y`
is set to the running `next_y`, which then advances by that section's (just
re-read) height. -/
def cascadeFrom : List String → ℚ → Table → Table
  | [], _, ps => ps
  | n :: rest, next_y, ps =>
    let ps' := setY ps n next_y
    cascadeFrom rest (next_y + hOf ps' n) ps'

/-- `PositionManager._recalculate_positions` for one section (`growSection`):
`ORDEM_SECOES.index(section)` (failure modelled as `none`), add the delta to
the stored height, then cascade the sections after it in `ORDEM_SECOES` from
`curr_y` plus the updated height. -/
def growSection (s : String) (delta : ℚ) (ps : Table) : Option Table :=
  match listIndex s ORDEM_SECOES with
  | none => none
  | some idx =>
    let curr_y := yOf ps s
    let curr_height := hOf ps s
    let ps' := setHeight ps s (curr_height + delta)
    let next_y := curr_y + hOf ps' s
    some (cascadeFrom (ORDEM_SECOES.drop (idx + 1)) next_y ps')

/-- A sequence of `growSection` calls, each on the table left by the previous
one (failing as soon as one call fails). -/
def applyGrows (gs : List (String × ℚ)) (ps : Table) : Option Table :=
  gs.foldlM (fun st p => growSection p.1 p.2 st) ps

/-- The stacking-adjacency invariant of the spec: for every pair of adjacent
sections (A, B) in `ORDEM_SECOES`, the stored `origin_y` of B equals the
stored `origin_y` of A plus the stored height of A. -/
def stacked (ps : Table) : Prop :=
  ∀ i : Nat, (h : i + 1 < ORDEM_SECOES.length) →
    yOf ps (ORDEM_SECOES.get ⟨i + 1, h⟩) =
      yOf ps (ORDEM_SECOES.get ⟨i, Nat.lt_of_succ_lt h⟩) +
        hOf ps (ORDEM_SECOES.get ⟨i, Nat.lt_of_succ_lt h⟩)

/-- Every section of `ORDEM_SECOES` has an entry in the table. -/
def hasSectionKeys (ps : Table) : Prop :=
  ∀ s ∈ ORDEM_SECOES, (ps.lookup s).isSome = true

/-- The height the stacking loop picks for a non-first section. -/
def pxHeight (exclude_sections : List String) (s : String) : ℚ :=
  if s ∈ exclude_sections then BASE_HEIGHT else svgHeight s

/-! ## The `Layout` accessor layer (`layout.py`) -/

/-- `Layout.HorizontalLines.VECTOR_POSITIONS` of `layout.py`. -/
def VECTOR_POSITIONS : List (String × ℚ) :=
  [("info_complementar", 780), ("totais", 740), ("valor_nfse", 680),
   ("trib_federal", 610), ("tb_municipal", 500), ("servico", 425),
   ("intermediario", 350), ("tomador", 270), ("emitente", 180),
   ("info_nota", 100)]

/-- The fields of `Layout` used by the modelled accessors, with `positions`
standing for the embedded `PositionManager` state. -/
structure Layout where
  left_margin : ℚ
  internal_left_margin : ℚ
  top_margin : ℚ
  epw : ℚ
  positions : Table
deriving DecidableEq, Repr

/-- `Layout.__init__`: margins are stored, `internal_left_margin` is
`left_margin + left_margin / 2`, and the embedded `PositionManager` computes
the section table once. -/
def Layout.init (left_margin top_margin effective_page_width : ℚ)
    (exclude_sections : List String) : Layout :=
  { left_margin := left_margin
    internal_left_margin := left_margin + left_margin / 2
    top_margin := top_margin
    epw := effective_page_width
    positions := calculate_positions top_margin left_margin exclude_sections }

/-- `Layout.get_section_y`: the stored `y` when the name is registered, a
raised `ValueError` (modelled as `none`) otherwise. -/
def get_section_y (L : Layout) (section_name : String) : Option ℚ :=
  (L.positions.lookup section_name).map SectionPos.y

/-- `TextElement` of `layout.py` (the fields set by the modelled accessors);
`line_height` defaults to `height` and then to `4.0` as in `__init__`. -/
structure TextElement where
  x : ℚ
  y : ℚ
  value : String
  width : Option ℚ
  height : Option ℚ
  font_size : ℚ
  font_style : String
  line_height : ℚ
deriving DecidableEq, Repr

/-- `TextElement.__init__`. -/
def mkTextElement (x y : ℚ) (value : String) (width height : Option ℚ)
    (font_size : ℚ) (font_style : String) (line_height : Option ℚ) :
    TextElement :=
  ⟨x, y, value, width, height, font_size, font_style,
   line_height.getD (height.getD 4)⟩

/-- `LineElement` of `layout.py`: `x2 = x + width`, `y2 = y`. -/
structure LineElement where
  x : ℚ
  y : ℚ
  width : ℚ
  x2 : ℚ
  y2 : ℚ
  value : Option String
deriving DecidableEq, Repr

/-- `LineElement.__init__`. -/
def mkLineElement (x y width : ℚ) (value : Option String) : LineElement :=
  ⟨x, y, width, x + width, y, value⟩

/-- `Layout.get_tomador_title`, in state-passing form: the method reads the
current state and returns a fresh descriptor without assigning any attribute,
so the outgoing state is the incoming one (a raised `ValueError` from
`get_section_y` is modelled as `none`). -/
def get_tomador_title (L : Layout) : Option TextElement × Layout :=
  match get_section_y L "tomador" with
  | some y => (some (mkTextElement L.internal_left_margin y
      "TOMADOR DO SERVIÇO" none (some 5) 8 "B" none), L)
  | none => (none, L)

/-- `Layout._svg_to_pdf_y` (method form). -/
def layout_svg_to_pdf_y (L : Layout) (svg_y : ℚ) : ℚ :=
  L.top_margin + (svg_y - SVG_OFFSET_Y) * PX_TO_MM

/-- `Layout.get_horizontal_line`, in state-passing form: `get_section_y`
first, `VECTOR_POSITIONS` as fallback, a raised `ValueError` (`none`) when
both miss; the line starts at `left_margin + left_margin / 2` and its width
is `epw - left_margin`. -/
def get_horizontal_line (L : Layout) (line_name : String) :
    Option LineElement × Layout :=
  match get_section_y L line_name with
  | some y_mm => (some (mkLineElement (L.left_margin + L.left_margin / 2)
      y_mm (L.epw - L.left_margin) (some line_name)), L)
  | none =>
    match VECTOR_POSITIONS.lookup line_name with
    | some y_svg => (some (mkLineElement (L.left_margin + L.left_margin / 2)
        (layout_svg_to_pdf_y L y_svg) (L.epw - L.left_margin)
        (some line_name)), L)
    | none => (none, L)

/-! ## Association-list lemmas -/

theorem lookup_cons (k : String) (p : SectionPos) (ps : Table) (m : String) :
    ((k, p) :: ps).lookup m = if m = k then some p else ps.lookup m := by
  by_cases h : m = k
  · have hb : (m == k) = true := by simp [h]
    simp [List.lookup, hb, h]
  · have hb : (m == k) = false := by simp [h]
    simp [List.lookup, hb, h]

theorem lookup_map_upd (f : SectionPos → SectionPos) (s : String) (ps : Table)
    (m : String) :
    (ps.map fun e => if e.1 = s then (e.1, f e.2) else e).lookup m =
      (ps.lookup m).map fun p => if m = s then f p else p := by
  induction ps with
  | nil => simp
  | cons e rest ih =>
    obtain ⟨k, p⟩ := e
    by_cases hks : k = s
    · subst hks
      by_cases hmk : m = k
      · subst hmk
        simp [lookup_cons]
      · simp [lookup_cons, hmk, ih]
    · by_cases hmk : m = k
      · subst hmk
        simp [lookup_cons, hks]
      · simp [lookup_cons, hks, hmk, ih]

theorem lookup_setY (ps : Table) (s : String) (y : ℚ) (m : String) :
    (setY ps s y).lookup m =
      (ps.lookup m).map fun p => if m = s then ⟨p.x, y, p.height⟩ else p :=
  lookup_map_upd (fun p => ⟨p.x, y, p.height⟩) s ps m

theorem lookup_setHeight (ps : Table) (s : String) (h : ℚ) (m : String) :
    (setHeight ps s h).lookup m =
      (ps.lookup m).map fun p => if m = s then ⟨p.x, p.y, h⟩ else p :=
  lookup_map_upd (fun p => ⟨p.x, p.y, h⟩) s ps m

theorem hOf_setY (ps : Table) (s : String) (y : ℚ) (m : String) :
    hOf (setY ps s y) m = hOf ps m := by
  unfold hOf
  rw [lookup_setY]
  cases hm : ps.lookup m with
  | none => simp
  | some p => by_cases h : m = s <;> simp [h]

theorem xOf_setY (ps : Table) (s : String) (y : ℚ) (m : String) :
    xOf (setY ps s y) m = xOf ps m := by
  unfold xOf
  rw [lookup_setY]
  cases hm : ps.lookup m with
  | none => simp
  | some p => by_cases h : m = s <;> simp [h]

theorem yOf_setY_ne (ps : Table) (s : String) (y : ℚ) (m : String) (h : m ≠ s) :
    yOf (setY ps s y) m = yOf ps m := by
  unfold yOf
  rw [lookup_setY]
  cases hm : ps.lookup m with
  | none => simp
  | some p => simp [h]

theorem yOf_setY_self (ps : Table) (s : String) (y : ℚ)
    (h : (ps.lookup s).isSome = true) : yOf (setY ps s y) s = y := by
  unfold yOf
  rw [lookup_setY]
  cases hm : ps.lookup s with
  | none => rw [hm] at h; simp at h
  | some p => simp

theorem yOf_setHeight (ps : Table) (s : String) (hv : ℚ) (m : String) :
    yOf (setHeight ps s hv) m = yOf ps m := by
  unfold yOf
  rw [lookup_setHeight]
  cases hm : ps.lookup m with
  | none => simp
  | some p => by_cases h : m = s <;> simp [h]

theorem hOf_setHeight_ne (ps : Table) (s : String) (hv : ℚ) (m : String)
    (h : m ≠ s) : hOf (setHeight ps s hv) m = hOf ps m := by
  unfold hOf
  rw [lookup_setHeight]
  cases hm : ps.lookup m with
  | none => simp
  | some p => simp [h]

theorem hOf_setHeight_self (ps : Table) (s : String) (hv : ℚ)
    (h : (ps.lookup s).isSome = true) : hOf (setHeight ps s hv) s = hv := by
  unfold hOf
  rw [lookup_setHeight]
  cases hm : ps.lookup s with
  | none => rw [hm] at h; simp at h
  | some p => simp

theorem isSome_lookup_setY (ps : Table) (s : String) (y : ℚ) (m : String) :
    ((setY ps s y).lookup m).isSome = (ps.lookup m).isSome := by
  rw [lookup_setY]
  cases ps.lookup m <;> simp

theorem isSome_lookup_setHeight (ps : Table) (s : String) (hv : ℚ) (m : String) :
    ((setHeight ps s hv).lookup m).isSome = (ps.lookup m).isSome := by
  rw [lookup_setHeight]
  cases ps.lookup m <;> simp

/-! ## Cascade lemmas -/

theorem hOf_cascadeFrom (ns : List String) (y : ℚ) (ps : Table) (m : String) :
    hOf (cascadeFrom ns y ps) m = hOf ps m := by
  induction ns generalizing y ps with
  | nil => rfl
  | cons n rest ih => rw [cascadeFrom, ih, hOf_setY]

theorem xOf_cascadeFrom (ns : List String) (y : ℚ) (ps : Table) (m : String) :
    xOf (cascadeFrom ns y ps) m = xOf ps m := by
  induction ns generalizing y ps with
  | nil => rfl
  | cons n rest ih => rw [cascadeFrom, ih, xOf_setY]

theorem isSome_lookup_cascadeFrom (ns : List String) (y : ℚ) (ps : Table)
    (m : String) :
    ((cascadeFrom ns y ps).lookup m).isSome = (ps.lookup m).isSome := by
  induction ns generalizing y ps with
  | nil => rfl
  | cons n rest ih => rw [cascadeFrom, ih, isSome_lookup_setY]

theorem yOf_cascadeFrom_not_mem (ns : List String) (y : ℚ) (ps : Table)
    (m : String) (h : m ∉ ns) : yOf (cascadeFrom ns y ps) m = yOf ps m := by
  induction ns generalizing y ps with
  | nil => rfl
  | cons n rest ih =>
    rw [cascadeFrom, ih _ _ (fun hm => h (List.mem_cons_of_mem _ hm)),
      yOf_setY_ne _ _ _ _ (fun hm => h (by rw [hm]; exact List.mem_cons_self _ _))]

/-- Value of the cascade on its `j`-th target: the starting `next_y` plus the
sum of the (unchanged) heights of the targets before it. -/
theorem yOf_cascadeFrom_get (ns : List String) (y : ℚ) (ps : Table)
    (hnd : ns.Nodup) (hkeys : ∀ n ∈ ns, (ps.lookup n).isSome = true)
    (j : Nat) (hj : j < ns.length) :
    yOf (cascadeFrom ns y ps) (ns.get ⟨j, hj⟩) =
      y + ((ns.take j).map (hOf ps)).sum := by
  induction ns generalizing y ps j with
  | nil => exact absurd hj (by simp)
  | cons n rest ih =>
    rw [cascadeFrom]
    match j with
    | 0 =>
      have hn : n ∉ rest := (List.nodup_cons.mp hnd).1
      rw [show (n :: rest).get ⟨0, hj⟩ = n from rfl,
        yOf_cascadeFrom_not_mem _ _ _ _ hn,
        yOf_setY_self _ _ _ (hkeys n (List.mem_cons_self _ _))]
      simp
    | j' + 1 =>
      have hj' : j' < rest.length := by
        simpa using Nat.lt_of_succ_lt_succ hj
      have hrec := ih (y + hOf (setY ps n y) n) (setY ps n y)
        (List.nodup_cons.mp hnd).2
        (fun n' hn' => by
          rw [isSome_lookup_setY]
          exact hkeys n' (List.mem_cons_of_mem _ hn'))
        j' hj'
      rw [show (n :: rest).get ⟨j' + 1, hj⟩ = rest.get ⟨j', hj'⟩ from rfl, hrec,
        List.take_succ_cons, List.map_cons, List.sum_cons, hOf_setY]
      have hmap : (rest.take j').map (hOf (setY ps n y)) =
          (rest.take j').map (hOf ps) :=
        List.map_congr_left (fun m _ => hOf_setY ps n y m)
      rw [hmap]
      ring

/-! ## `listIndex` and `ORDEM_SECOES` facts -/

theorem listIndex_eq_none_iff (s : String) (ns : List String) :
    listIndex s ns = none ↔ s ∉ ns := by
  induction ns with
  | nil => simp [listIndex]
  | cons n rest ih =>
    by_cases h : n = s
    · simp [listIndex, h]
    · simp [listIndex, h, ih, Option.map_eq_none', Ne.symm h]

theorem listIndex_some_spec (s : String) (ns : List String) (i : Nat)
    (h : listIndex s ns = some i) : ∃ hi : i < ns.length, ns.get ⟨i, hi⟩ = s := by
  induction ns generalizing i with
  | nil => simp [listIndex] at h
  | cons n rest ih =>
    by_cases hns : n = s
    · rw [listIndex, if_pos hns] at h
      obtain rfl : i = 0 := by simpa using h.symm
      exact ⟨by simp, hns⟩
    · rw [listIndex, if_neg hns] at h
      obtain ⟨i', hi', rfl⟩ : ∃ i', listIndex s rest = some i' ∧ i = i' + 1 := by
        cases hrec : listIndex s rest with
        | none => rw [hrec] at h; simp at h
        | some k => rw [hrec] at h; exact ⟨k, rfl, by simpa using h.symm⟩
      obtain ⟨hlt, hget⟩ := ih i' hi'
      exact ⟨by simpa using Nat.succ_lt_succ hlt, hget⟩

theorem ordem_nodup : ORDEM_SECOES.Nodup := by decide

theorem get_not_mem_drop (l : List String) (hnd : l.Nodup) (j k : Nat)
    (hj : j < l.length) (hjk : j < k) : l.get ⟨j, hj⟩ ∉ l.drop k := by
  intro hmem
  obtain ⟨⟨i, hi⟩, hget⟩ := List.mem_iff_get.mp hmem
  have hik : k + i < l.length := by
    have := hi
    simp only [List.length_drop] at this
    omega
  have hD : (l.drop k).get ⟨i, hi⟩ = l.get ⟨k + i, hik⟩ := by simp
  rw [hD] at hget
  have : k + i = j := by
    have h2 := (List.Nodup.get_inj_iff hnd).mp hget
    simpa using h2
  omega

theorem get_ne_of_index_ne (l : List String) (hnd : l.Nodup) (i j : Nat)
    (hi : i < l.length) (hj : j < l.length) (hij : i ≠ j) :
    l.get ⟨i, hi⟩ ≠ l.get ⟨j, hj⟩ := by
  intro hg
  have := (List.Nodup.get_inj_iff hnd).mp hg
  simp only [Fin.mk.injEq] at this
  exact hij this

/-! ## Anatomy of `growSection` -/

theorem grow_eq_cascade (s : String) (δ : ℚ) (ps : Table) (idx : Nat)
    (hidx : listIndex s ORDEM_SECOES = some idx) (ps' : Table)
    (h : growSection s δ ps = some ps') :
    ps' = cascadeFrom (ORDEM_SECOES.drop (idx + 1))
      (yOf ps s + hOf (setHeight ps s (hOf ps s + δ)) s)
      (setHeight ps s (hOf ps s + δ)) := by
  unfold growSection at h
  rw [hidx] at h
  exact (Option.some.inj h).symm

theorem grow_isSome_iff (s : String) (δ : ℚ) (ps : Table) :
    (growSection s δ ps).isSome = true ↔ s ∈ ORDEM_SECOES := by
  unfold growSection
  cases hidx : listIndex s ORDEM_SECOES with
  | none =>
    simpa using (listIndex_eq_none_iff s ORDEM_SECOES).mp hidx
  | some idx =>
    obtain ⟨hlt, hget⟩ := listIndex_some_spec s _ idx hidx
    simpa using hget ▸ List.get_mem _ _ _

theorem grow_mem_of_some (s : String) (δ : ℚ) (ps ps' : Table)
    (h : growSection s δ ps = some ps') : s ∈ ORDEM_SECOES := by
  exact (grow_isSome_iff s δ ps).mp (by rw [h]; rfl)

theorem grow_hOf_ne (s : String) (δ : ℚ) (ps ps' : Table) (m : String)
    (hms : m ≠ s) (h : growSection s δ ps = some ps') : hOf ps' m = hOf ps m := by
  cases hidx : listIndex s ORDEM_SECOES with
  | none => unfold growSection at h; rw [hidx] at h; exact absurd h (by simp)
  | some idx =>
    rw [grow_eq_cascade s δ ps idx hidx ps' h, hOf_cascadeFrom,
      hOf_setHeight_ne _ _ _ _ hms]

theorem grow_hOf_self (s : String) (δ : ℚ) (ps ps' : Table)
    (hsome : (ps.lookup s).isSome = true)
    (h : growSection s δ ps = some ps') : hOf ps' s = hOf ps s + δ := by
  cases hidx : listIndex s ORDEM_SECOES with
  | none => unfold growSection at h; rw [hidx] at h; exact absurd h (by simp)
  | some idx =>
    rw [grow_eq_cascade s δ ps idx hidx ps' h, hOf_cascadeFrom,
      hOf_setHeight_self _ _ _ hsome]

theorem grow_xOf (s : String) (δ : ℚ) (ps ps' : Table) (m : String)
    (h : growSection s δ ps = some ps') : xOf ps' m = xOf ps m := by
  cases hidx : listIndex s ORDEM_SECOES with
  | none => unfold growSection at h; rw [hidx] at h; exact absurd h (by simp)
  | some idx =>
    rw [grow_eq_cascade s δ ps idx hidx ps' h, xOf_cascadeFrom]
    unfold xOf
    rw [lookup_setHeight]
    cases hm : ps.lookup m with
    | none => simp
    | some p => by_cases hms : m = s <;> simp [hms]

theorem grow_isSome_lookup (s : String) (δ : ℚ) (ps ps' : Table) (m : String)
    (h : growSection s δ ps = some ps') :
    ((ps'.lookup m).isSome) = ((ps.lookup m).isSome) := by
  cases hidx : listIndex s ORDEM_SECOES with
  | none => unfold growSection at h; rw [hidx] at h; exact absurd h (by simp)
  | some idx =>
    rw [grow_eq_cascade s δ ps idx hidx ps' h, isSome_lookup_cascadeFrom,
      isSome_lookup_setHeight]

theorem grow_hasSectionKeys (s : String) (δ : ℚ) (ps ps' : Table)
    (hk : hasSectionKeys ps) (h : growSection s δ ps = some ps') :
    hasSectionKeys ps' := by
  intro n hn
  rw [grow_isSome_lookup s δ ps ps' n h]
  exact hk n hn

/-- The `origin_y` of every section up to and including the grown one is
untouched by `growSection`. -/
theorem grow_prefix_y (s : String) (δ : ℚ) (ps ps' : Table) (idx : Nat)
    (hidx : listIndex s ORDEM_SECOES = some idx)
    (h : growSection s δ ps = some ps')
    (j : Nat) (hj : j < ORDEM_SECOES.length) (hji : j ≤ idx) :
    yOf ps' (ORDEM_SECOES.get ⟨j, hj⟩) = yOf ps (ORDEM_SECOES.get ⟨j, hj⟩) := by
  rw [grow_eq_cascade s δ ps idx hidx ps' h,
    yOf_cascadeFrom_not_mem _ _ _ _
      (get_not_mem_drop _ ordem_nodup j (idx + 1) hj (by omega)),
    yOf_setHeight]

/-- Value of the cascade of `growSection` on the section at overall index
`n ≥ idx + 1` of `ORDEM_SECOES`. -/
theorem yOf_cascade_at (ps₁ : Table) (Y : ℚ) (idx n : Nat)
    (hn : n < ORDEM_SECOES.length) (hlt : idx + 1 ≤ n)
    (hkeys : ∀ m ∈ ORDEM_SECOES.drop (idx + 1), (ps₁.lookup m).isSome = true) :
    yOf (cascadeFrom (ORDEM_SECOES.drop (idx + 1)) Y ps₁)
        (ORDEM_SECOES.get ⟨n, hn⟩) =
      Y + (((ORDEM_SECOES.drop (idx + 1)).take (n - (idx + 1))).map
        (hOf ps₁)).sum := by
  obtain ⟨j, rfl⟩ : ∃ j, n = idx + 1 + j := ⟨n - (idx + 1), by omega⟩
  have hjD : j < (ORDEM_SECOES.drop (idx + 1)).length := by
    simp only [List.length_drop]; omega
  have hg : ORDEM_SECOES.get ⟨idx + 1 + j, hn⟩ =
      (ORDEM_SECOES.drop (idx + 1)).get ⟨j, hjD⟩ := by simp
  have hsub : idx + 1 + j - (idx + 1) = j := by omega
  rw [hg, hsub]
  exact yOf_cascadeFrom_get _ Y ps₁
    (List.Nodup.sublist (List.drop_sublist _ _) ordem_nodup) hkeys j hjD

/-- `growSection` preserves the stacking-adjacency invariant. -/
theorem grow_stacked (s : String) (δ : ℚ) (ps ps' : Table)
    (hk : hasSectionKeys ps) (hst : stacked ps)
    (h : growSection s δ ps = some ps') : stacked ps' := by
  cases hidx : listIndex s ORDEM_SECOES with
  | none => unfold growSection at h; rw [hidx] at h; exact absurd h (by simp)
  | some idx =>
  obtain ⟨hidxlt, hgetidx⟩ := listIndex_some_spec s _ idx hidx
  have hsmem : s ∈ ORDEM_SECOES := hgetidx ▸ List.get_mem _ _ _
  have hssome : (ps.lookup s).isSome = true := hk s hsmem
  have hcasc := grow_eq_cascade s δ ps idx hidx ps' h
  have hDkeys : ∀ m ∈ ORDEM_SECOES.drop (idx + 1),
      ((setHeight ps s (hOf ps s + δ)).lookup m).isSome = true := fun m hm => by
    rw [isSome_lookup_setHeight]
    exact hk m (List.mem_of_mem_drop hm)
  have hh1 : hOf (setHeight ps s (hOf ps s + δ)) s = hOf ps s + δ :=
    hOf_setHeight_self _ _ _ hssome
  intro i hi1
  rcases lt_trichotomy i idx with hlt | heq | hgt
  · have e1 := grow_prefix_y s δ ps ps' idx hidx h (i + 1) hi1 (by omega)
    have e2 := grow_prefix_y s δ ps ps' idx hidx h i (Nat.lt_of_succ_lt hi1)
      (by omega)
    have hne : ORDEM_SECOES.get ⟨i, Nat.lt_of_succ_lt hi1⟩ ≠ s := by
      rw [← hgetidx]
      exact get_ne_of_index_ne _ ordem_nodup _ _ _ _ (by omega)
    rw [e1, e2, grow_hOf_ne s δ ps ps' _ hne h]
    exact hst i hi1
  · subst heq
    have hgi : ORDEM_SECOES.get ⟨i, Nat.lt_of_succ_lt hi1⟩ = s := hgetidx
    have e2 := grow_prefix_y s δ ps ps' i hidx h i (Nat.lt_of_succ_lt hi1)
      (le_refl i)
    rw [hgi] at e2
    rw [hgi, hcasc, yOf_cascade_at _ _ i (i + 1) hi1 (by omega) hDkeys,
      ← hcasc, e2, grow_hOf_self s δ ps ps' hssome h]
    simp [Nat.sub_self, hh1]
  · obtain ⟨j, rfl⟩ : ∃ j, i = idx + 1 + j := ⟨i - (idx + 1), by omega⟩
    have hjD : j < (ORDEM_SECOES.drop (idx + 1)).length := by
      simp only [List.length_drop]; omega
    have hg1 : ORDEM_SECOES.get ⟨idx + 1 + j, Nat.lt_of_succ_lt hi1⟩ =
        (ORDEM_SECOES.drop (idx + 1)).get ⟨j, hjD⟩ := by simp
    rw [hcasc, yOf_cascade_at _ _ idx (idx + 1 + j + 1) hi1 (by omega) hDkeys,
      yOf_cascade_at _ _ idx (idx + 1 + j) (Nat.lt_of_succ_lt hi1)
        (by omega) hDkeys,
      hOf_cascadeFrom, hg1]
    have hs1 : idx + 1 + j + 1 - (idx + 1) = j + 1 := by omega
    have hs2 : idx + 1 + j - (idx + 1) = j := by omega
    rw [hs1, hs2, List.map_take, List.map_take,
      List.sum_take_succ ((ORDEM_SECOES.drop (idx + 1)).map
        (hOf (setHeight ps s (hOf ps s + δ)))) j (by simpa using hjD)]
    simp only [List.get_eq_getElem, List.getElem_map]
    ring

/-- Every section strictly after the grown one shifts down by exactly the
delta. -/
theorem grow_shift (s : String) (δ : ℚ) (ps ps' : Table) (idx : Nat)
    (hidx : listIndex s ORDEM_SECOES = some idx)
    (hk : hasSectionKeys ps) (hst : stacked ps)
    (h : growSection s δ ps = some ps')
    (j : Nat) (hj : j < ORDEM_SECOES.length) (hgt : idx < j) :
    yOf ps' (ORDEM_SECOES.get ⟨j, hj⟩) = yOf ps (ORDEM_SECOES.get ⟨j, hj⟩) + δ := by
  obtain ⟨hidxlt, hgetidx⟩ := listIndex_some_spec s _ idx hidx
  have hsmem : s ∈ ORDEM_SECOES := hgetidx ▸ List.get_mem _ _ _
  have hssome : (ps.lookup s).isSome = true := hk s hsmem
  have hh1 : hOf (setHeight ps s (hOf ps s + δ)) s = hOf ps s + δ :=
    hOf_setHeight_self _ _ _ hssome
  induction j with
  | zero => omega
  | succ n ih =>
    rcases Nat.lt_or_ge idx n with hn | hn
    · have hn10 : n < ORDEM_SECOES.length := Nat.lt_of_succ_lt hj
      have e1 := grow_stacked s δ ps ps' hk hst h n hj
      have e2 := hst n hj
      have hne : ORDEM_SECOES.get ⟨n, hn10⟩ ≠ s := by
        rw [← hgetidx]
        exact get_ne_of_index_ne _ ordem_nodup _ _ _ _ (by omega)
      rw [e1, ih hn10 hn, grow_hOf_ne s δ ps ps' _ hne h, e2]
      ring
    · have hni : n = idx := by omega
      subst hni
      have hcasc := grow_eq_cascade s δ ps n hidx ps' h
      have hDkeys : ∀ m ∈ ORDEM_SECOES.drop (n + 1),
          ((setHeight ps s (hOf ps s + δ)).lookup m).isSome = true := fun m hm => by
        rw [isSome_lookup_setHeight]
        exact hk m (List.mem_of_mem_drop hm)
      have e2 := hst n hj
      have hgi : ORDEM_SECOES.get ⟨n, Nat.lt_of_succ_lt hj⟩ = s := hgetidx
      rw [hcasc, yOf_cascade_at _ _ n (n + 1) hj (le_refl _) hDkeys, e2, hgi,
        hh1]
      simp [Nat.sub_self]
      ring

/-- `applyGrows` on a cons. -/
theorem applyGrows_cons (g : String × ℚ) (gs : List (String × ℚ)) (ps : Table) :
    applyGrows (g :: gs) ps = (growSection g.1 g.2 ps).bind (applyGrows gs) := by
  unfold applyGrows
  rw [List.foldlM_cons]
  rfl

/-- The invariant state is preserved along any successful sequence of
`growSection` calls. -/
theorem applyGrows_stacked (gs : List (String × ℚ)) (ps st : Table)
    (hk : hasSectionKeys ps) (hst : stacked ps)
    (h : applyGrows gs ps = some st) : stacked st ∧ hasSectionKeys st := by
  induction gs generalizing ps with
  | nil =>
    obtain rfl : ps = st := by simpa [applyGrows] using h
    exact ⟨hst, hk⟩
  | cons g gs ih =>
    rw [applyGrows_cons] at h
    cases hg : growSection g.1 g.2 ps with
    | none => rw [hg] at h; simp at h
    | some ps₂ =>
      rw [hg] at h
      simp only [Option.some_bind] at h
      exact ih ps₂ (grow_hasSectionKeys g.1 g.2 ps ps₂ hk hg)
        (grow_stacked g.1 g.2 ps ps₂ hk hst hg) h

/-! ## Anatomy of `calculate_positions` -/

theorem stackSections_cons (l : ℚ) (e : List String) (n : String)
    (rest : List String) (y : ℚ) :
    stackSections l e (n :: rest) y =
      (n, ⟨l, y, pxHeight e n⟩) :: stackSections l e rest (y + pxHeight e n) := rfl

theorem map_fst_stackSections (l : ℚ) (e : List String) (ns : List String)
    (y : ℚ) : (stackSections l e ns y).map Prod.fst = ns := by
  induction ns generalizing y with
  | nil => rfl
  | cons n rest ih => rw [stackSections_cons, List.map_cons, ih]

theorem lookup_isSome_iff_mem (ps : Table) (m : String) :
    (ps.lookup m).isSome = true ↔ m ∈ ps.map Prod.fst := by
  induction ps with
  | nil => simp
  | cons ee rest ih =>
    obtain ⟨k, p⟩ := ee
    by_cases h : m = k
    · subst h; simp [lookup_cons]
    · simp [lookup_cons, h, ih, Ne.symm h]

theorem lookup_eq_none_iff_keys (ps : Table) (m : String) :
    ps.lookup m = none ↔ m ∉ ps.map Prod.fst := by
  rw [← lookup_isSome_iff_mem]
  cases ps.lookup m <;> simp

theorem lookup_append_some (a b : Table) (m : String) (p : SectionPos)
    (h : a.lookup m = some p) : (a ++ b).lookup m = some p := by
  induction a with
  | nil => simp [List.lookup] at h
  | cons ee rest ih =>
    obtain ⟨k, q⟩ := ee
    by_cases hk : m = k
    · subst hk
      rw [lookup_cons] at h
      simp at h
      subst h
      rw [List.cons_append, lookup_cons, if_pos rfl]
    · rw [lookup_cons, if_neg hk] at h
      rw [List.cons_append, lookup_cons, if_neg hk]
      exact ih h

theorem lookup_append_none (a b : Table) (m : String)
    (h : a.lookup m = none) : (a ++ b).lookup m = b.lookup m := by
  induction a with
  | nil => simp
  | cons ee rest ih =>
    obtain ⟨k, q⟩ := ee
    by_cases hk : m = k
    · subst hk
      rw [lookup_cons, if_pos rfl] at h
      simp at h
    · rw [lookup_cons, if_neg hk] at h
      rw [List.cons_append, lookup_cons, if_neg hk]
      exact ih h

theorem lookup_map_convert (t : ℚ) (ps : Table) (m : String) :
    (ps.map (convertEntry t)).lookup m =
      (ps.lookup m).map fun p =>
        ⟨p.x, svg_to_pdf_y p.y t,
         if m = "header" then p.height else p.height * PX_TO_MM⟩ := by
  induction ps with
  | nil => simp
  | cons ee rest ih =>
    obtain ⟨k, p⟩ := ee
    by_cases hk : m = k
    · subst hk
      rw [List.map_cons,
        show convertEntry t (m, p) = (m, ⟨p.x, svg_to_pdf_y p.y t,
          if m = "header" then p.height else p.height * PX_TO_MM⟩) from rfl,
        lookup_cons, if_pos rfl, lookup_cons, if_pos rfl]
      rfl
    · rw [List.map_cons,
        show convertEntry t (k, p) = (k, ⟨p.x, svg_to_pdf_y p.y t,
          if k = "header" then p.height else p.height * PX_TO_MM⟩) from rfl,
        lookup_cons, if_neg hk, lookup_cons, if_neg hk, ih]

theorem lookup_stackSections (l : ℚ) (e : List String) (ns : List String)
    (y : ℚ) (hnd : ns.Nodup) (j : Nat) (hj : j < ns.length) :
    (stackSections l e ns y).lookup (ns.get ⟨j, hj⟩) =
      some ⟨l, y + ((ns.take j).map (pxHeight e)).sum,
            pxHeight e (ns.get ⟨j, hj⟩)⟩ := by
  induction ns generalizing y j with
  | nil => exact absurd hj (by simp)
  | cons n rest ih =>
    rw [stackSections_cons]
    match j with
    | 0 =>
      rw [show (n :: rest).get ⟨0, hj⟩ = n from rfl, lookup_cons, if_pos rfl]
      simp
    | j' + 1 =>
      have hj' : j' < rest.length := by simpa using Nat.lt_of_succ_lt_succ hj
      have hne : rest.get ⟨j', hj'⟩ ≠ n := by
        intro hh
        exact (List.nodup_cons.mp hnd).1 (hh ▸ List.get_mem _ _ _)
      rw [show (n :: rest).get ⟨j' + 1, hj⟩ = rest.get ⟨j', hj'⟩ from rfl,
        lookup_cons, if_neg hne,
        ih (y + pxHeight e n) (List.nodup_cons.mp hnd).2 j' hj',
        List.take_succ_cons, List.map_cons, List.sum_cons]
      simp only [Option.some.injEq, SectionPos.mk.injEq, true_and, and_true]
      ring

theorem generalLayoutPx_eq (l : ℚ) (e : List String) :
    generalLayoutPx l e =
      ("info_nota", (⟨l, base_position, base_height⟩ : SectionPos)) ::
      stackSections l e ORDEM_SECOES.tail (base_position + base_height) := rfl

theorem map_fst_generalLayoutPx (l : ℚ) (e : List String) :
    (generalLayoutPx l e).map Prod.fst = ORDEM_SECOES := by
  rw [generalLayoutPx_eq, List.map_cons, map_fst_stackSections]
  rfl

theorem calculate_positions_eq (t l : ℚ) (e : List String) :
    calculate_positions t l e =
      ((generalLayoutPx l e) ++
        [("header", (⟨l, t, (yOf (generalLayoutPx l e) "info_nota" - 0) *
          PX_TO_MM⟩ : SectionPos))]).map (convertEntry t) := rfl

theorem map_fst_calc (t l : ℚ) (e : List String) :
    (calculate_positions t l e).map Prod.fst = ORDEM_SECOES ++ ["header"] := by
  rw [calculate_positions_eq, List.map_map,
    show (Prod.fst ∘ convertEntry t) = (Prod.fst :
      String × SectionPos → String) from funext fun ee => rfl,
    List.map_append, map_fst_generalLayoutPx]
  rfl

theorem calc_hasKeys (t l : ℚ) (e : List String) :
    hasSectionKeys (calculate_positions t l e) := by
  intro n hn
  rw [lookup_isSome_iff_mem, map_fst_calc]
  exact List.mem_append_left _ hn

theorem ordem_tail_get_ne_info (j : Nat) (hj : j < ORDEM_SECOES.tail.length) :
    ORDEM_SECOES.tail.get ⟨j, hj⟩ ≠ "info_nota" := by
  intro hh
  exact (by decide : "info_nota" ∉ ORDEM_SECOES.tail) (hh ▸ List.get_mem _ _ _)

theorem ordem_tail_get_ne_header (j : Nat) (hj : j < ORDEM_SECOES.tail.length) :
    ORDEM_SECOES.tail.get ⟨j, hj⟩ ≠ "header" := by
  intro hh
  exact (by decide : "header" ∉ ORDEM_SECOES.tail) (hh ▸ List.get_mem _ _ _)

theorem calc_lookup_info_nota (t l : ℚ) (e : List String) :
    (calculate_positions t l e).lookup "info_nota" =
      some ⟨l, svg_to_pdf_y base_position t, base_height * PX_TO_MM⟩ := by
  rw [calculate_positions_eq, lookup_map_convert,
    lookup_append_some _ _ _ ⟨l, base_position, base_height⟩
      (by rw [generalLayoutPx_eq, lookup_cons, if_pos rfl]),
    Option.map_some']
  rw [if_neg (by decide : ¬("info_nota" = "header"))]

theorem calc_lookup_tail (t l : ℚ) (e : List String) (j : Nat)
    (hj : j < ORDEM_SECOES.tail.length) :
    (calculate_positions t l e).lookup (ORDEM_SECOES.tail.get ⟨j, hj⟩) =
      some ⟨l, svg_to_pdf_y (base_position + base_height +
              ((ORDEM_SECOES.tail.take j).map (pxHeight e)).sum) t,
            pxHeight e (ORDEM_SECOES.tail.get ⟨j, hj⟩) * PX_TO_MM⟩ := by
  have htnd : ORDEM_SECOES.tail.Nodup := by decide
  have hpx : (generalLayoutPx l e).lookup (ORDEM_SECOES.tail.get ⟨j, hj⟩) =
      some ⟨l, base_position + base_height +
              ((ORDEM_SECOES.tail.take j).map (pxHeight e)).sum,
            pxHeight e (ORDEM_SECOES.tail.get ⟨j, hj⟩)⟩ := by
    rw [generalLayoutPx_eq, lookup_cons, if_neg (ordem_tail_get_ne_info j hj),
      lookup_stackSections l e ORDEM_SECOES.tail _ htnd j hj]
  rw [calculate_positions_eq, lookup_map_convert,
    lookup_append_some _ _ _ _ hpx, Option.map_some']
  rw [if_neg (ordem_tail_get_ne_header j hj)]

theorem calc_lookup_header (t l : ℚ) (e : List String) :
    (calculate_positions t l e).lookup "header" =
      some ⟨l, svg_to_pdf_y t t, base_position * PX_TO_MM⟩ := by
  have hnone : (generalLayoutPx l e).lookup "header" = none := by
    rw [lookup_eq_none_iff_keys, map_fst_generalLayoutPx]
    decide
  rw [calculate_positions_eq, lookup_map_convert, lookup_append_none _ _ _ hnone,
    lookup_cons, if_pos rfl, Option.map_some']
  rw [if_pos rfl,
    show yOf (generalLayoutPx l e) "info_nota" = base_position from rfl]
  norm_num

/-- The freshly computed layout satisfies the stacking-adjacency invariant. -/
theorem calc_stacked (t l : ℚ) (e : List String) :
    stacked (calculate_positions t l e) := by
  intro i hi
  have hlen10 : ORDEM_SECOES.length = 10 := rfl
  match i with
  | 0 =>
    have h0t : (0 : Nat) < ORDEM_SECOES.tail.length := by decide
    have h1 : ORDEM_SECOES.get ⟨1, hi⟩ = ORDEM_SECOES.tail.get ⟨0, h0t⟩ := rfl
    have h0 : ORDEM_SECOES.get ⟨0, Nat.lt_of_succ_lt hi⟩ = "info_nota" := rfl
    rw [h1, h0]
    unfold yOf hOf
    rw [calc_lookup_tail t l e 0 h0t, calc_lookup_info_nota t l e]
    simp only [Option.map_some', Option.getD_some, List.take_zero,
      List.map_nil, List.sum_nil]
    unfold svg_to_pdf_y
    ring
  | j + 1 =>
    have hjt : j < ORDEM_SECOES.tail.length := by
      rw [hlen10] at hi
      have : ORDEM_SECOES.tail.length = 9 := rfl
      omega
    have hj1t : j + 1 < ORDEM_SECOES.tail.length := by
      rw [hlen10] at hi
      have : ORDEM_SECOES.tail.length = 9 := rfl
      omega
    have h2 : ORDEM_SECOES.get ⟨j + 1 + 1, hi⟩ =
        ORDEM_SECOES.tail.get ⟨j + 1, hj1t⟩ := rfl
    have h1 : ORDEM_SECOES.get ⟨j + 1, Nat.lt_of_succ_lt hi⟩ =
        ORDEM_SECOES.tail.get ⟨j, hjt⟩ := rfl
    rw [h2, h1]
    unfold yOf hOf
    rw [calc_lookup_tail t l e (j + 1) hj1t, calc_lookup_tail t l e j hjt]
    simp only [Option.map_some', Option.getD_some]
    rw [List.map_take, List.map_take,
      List.sum_take_succ (ORDEM_SECOES.tail.map (pxHeight e)) j
        (by simpa using hjt)]
    simp only [List.get_eq_getElem, List.getElem_map]
    unfold svg_to_pdf_y
    ring

/-! ## Commutation lemmas for `growSection` accumulation -/

theorem setHeight_setHeight (ps : Table) (s : String) (a b : ℚ) :
    setHeight (setHeight ps s a) s b = setHeight ps s b := by
  unfold setHeight
  rw [List.map_map]
  apply List.map_congr_left
  intro ee _
  by_cases h : ee.1 = s <;> simp [h]

theorem setY_setY_same (ps : Table) (s : String) (a b : ℚ) :
    setY (setY ps s a) s b = setY ps s b := by
  unfold setY
  rw [List.map_map]
  apply List.map_congr_left
  intro ee _
  by_cases h : ee.1 = s <;> simp [h]

theorem setY_setHeight_comm (ps : Table) (m n : String) (hv y : ℚ) :
    setY (setHeight ps m hv) n y = setHeight (setY ps n y) m hv := by
  unfold setY setHeight
  rw [List.map_map, List.map_map]
  apply List.map_congr_left
  intro ee _
  obtain ⟨k, p⟩ := ee
  by_cases h1 : k = m
  · subst h1
    by_cases h2 : k = n
    · subst h2
      simp
    · simp [h2]
  · by_cases h2 : k = n
    · subst h2
      simp [h1]
    · simp [h1, h2]

theorem setY_setY_ne_comm (ps : Table) (m n : String) (a y : ℚ) (hmn : m ≠ n) :
    setY (setY ps m a) n y = setY (setY ps n y) m a := by
  unfold setY
  rw [List.map_map, List.map_map]
  apply List.map_congr_left
  intro ee _
  obtain ⟨k, p⟩ := ee
  by_cases h1 : k = m
  · subst h1
    have h2 : ¬(k = n) := hmn
    simp [h2]
  · by_cases h2 : k = n
    · subst h2
      have h3 : ¬(m = k) := fun hh => h1 hh.symm
      simp [h1, h3]
    · simp [h1, h2]

theorem cascade_setHeight_comm (ns : List String) (y : ℚ) (ps : Table)
    (m : String) (hv : ℚ) (hm : m ∉ ns) :
    cascadeFrom ns y (setHeight ps m hv) =
      setHeight (cascadeFrom ns y ps) m hv := by
  induction ns generalizing y ps with
  | nil => rfl
  | cons n rest ih =>
    have hnm : n ≠ m := fun hh => hm (hh ▸ List.mem_cons_self _ _)
    simp only [cascadeFrom]
    rw [setY_setHeight_comm, hOf_setHeight_ne _ _ _ _ hnm]
    exact ih _ _ (fun hh => hm (List.mem_cons_of_mem _ hh))

theorem cascade_setY_comm (ns : List String) (y : ℚ) (ps : Table)
    (m : String) (a : ℚ) (hm : m ∉ ns) :
    cascadeFrom ns y (setY ps m a) = setY (cascadeFrom ns y ps) m a := by
  induction ns generalizing y ps with
  | nil => rfl
  | cons n rest ih =>
    have hnm : n ≠ m := fun hh => hm (hh ▸ List.mem_cons_self _ _)
    simp only [cascadeFrom]
    rw [setY_setY_ne_comm ps m n a y (Ne.symm hnm), hOf_setY]
    exact ih _ _ (fun hh => hm (List.mem_cons_of_mem _ hh))

theorem cascade_absorb (ns : List String) (y y' : ℚ) (ps : Table)
    (hnd : ns.Nodup) :
    cascadeFrom ns y (cascadeFrom ns y' ps) = cascadeFrom ns y ps := by
  induction ns generalizing y y' ps with
  | nil => rfl
  | cons n rest ih =>
    have hn : n ∉ rest := (List.nodup_cons.mp hnd).1
    simp only [cascadeFrom]
    rw [← cascade_setY_comm rest _ _ n y hn, setY_setY_same, hOf_cascadeFrom,
      hOf_setY]
    exact ih _ _ _ (List.nodup_cons.mp hnd).2

theorem growSection_eq (s : String) (δ : ℚ) (ps : Table) (idx : Nat)
    (hidx : listIndex s ORDEM_SECOES = some idx) :
    growSection s δ ps = some (cascadeFrom (ORDEM_SECOES.drop (idx + 1))
      (yOf ps s + hOf (setHeight ps s (hOf ps s + δ)) s)
      (setHeight ps s (hOf ps s + δ))) := by
  unfold growSection
  rw [hidx]

/-- Two consecutive `growSection` calls on the same section accumulate into a
single call with the summed delta. -/
theorem grow_then_grow (s : String) (d1 d2 : ℚ) (ps : Table)
    (hsome : (ps.lookup s).isSome = true) :
    (growSection s d1 ps).bind (growSection s d2) =
      growSection s (d1 + d2) ps := by
  cases hidx : listIndex s ORDEM_SECOES with
  | none =>
    unfold growSection
    rw [hidx]
    rfl
  | some idx =>
    obtain ⟨hidxlt, hgetidx⟩ := listIndex_some_spec s _ idx hidx
    have hsD : s ∉ ORDEM_SECOES.drop (idx + 1) := by
      have := get_not_mem_drop ORDEM_SECOES ordem_nodup idx (idx + 1) hidxlt
        (by omega)
      rwa [hgetidx] at this
    have hDnd : (ORDEM_SECOES.drop (idx + 1)).Nodup :=
      List.Nodup.sublist (List.drop_sublist _ _) ordem_nodup
    have h1 : hOf (setHeight ps s (hOf ps s + d1)) s = hOf ps s + d1 :=
      hOf_setHeight_self _ _ _ hsome
    rw [growSection_eq s d1 ps idx hidx, Option.some_bind,
      growSection_eq s d2 _ idx hidx, growSection_eq s (d1 + d2) ps idx hidx]
    have hQy : yOf (cascadeFrom (ORDEM_SECOES.drop (idx + 1))
        (yOf ps s + hOf (setHeight ps s (hOf ps s + d1)) s)
        (setHeight ps s (hOf ps s + d1))) s = yOf ps s := by
      rw [yOf_cascadeFrom_not_mem _ _ _ _ hsD, yOf_setHeight]
    have hQh : hOf (cascadeFrom (ORDEM_SECOES.drop (idx + 1))
        (yOf ps s + hOf (setHeight ps s (hOf ps s + d1)) s)
        (setHeight ps s (hOf ps s + d1))) s = hOf ps s + d1 := by
      rw [hOf_cascadeFrom]
      exact h1
    rw [hQy, hQh]
    rw [show setHeight (cascadeFrom (ORDEM_SECOES.drop (idx + 1))
        (yOf ps s + hOf (setHeight ps s (hOf ps s + d1)) s)
        (setHeight ps s (hOf ps s + d1))) s (hOf ps s + d1 + d2) =
      cascadeFrom (ORDEM_SECOES.drop (idx + 1))
        (yOf ps s + hOf (setHeight ps s (hOf ps s + d1)) s)
        (setHeight ps s (hOf ps s + d1 + d2)) from by
        rw [← cascade_setHeight_comm _ _ _ _ _ hsD, setHeight_setHeight]]
    rw [show hOf ps s + (d1 + d2) = hOf ps s + d1 + d2 from by ring]
    rw [hOf_cascadeFrom, hOf_setHeight_self _ _ _ hsome,
      cascade_absorb _ _ _ _ hDnd]

theorem applyGrows_single (g : String × ℚ) (ps : Table) :
    applyGrows [g] ps = growSection g.1 g.2 ps := by
  rw [applyGrows_cons]
  cases growSection g.1 g.2 ps <;> rfl

theorem stackSections_exclude_irrelevant (l : ℚ) (e : List String) (x : String)
    (ns : List String) (hx : x ∉ ns) :
    ∀ y, stackSections l (x :: e) ns y = stackSections l e ns y := by
  induction ns with
  | nil => intro y; rfl
  | cons n rest ih =>
    intro y
    have hnx : ¬(n = x) := fun hh => hx (hh ▸ List.mem_cons_self _ _)
    have hpx : pxHeight (x :: e) n = pxHeight e n := by
      unfold pxHeight
      by_cases hne : n ∈ e
      · rw [if_pos hne, if_pos (List.mem_cons_of_mem _ hne)]
      · rw [if_neg hne, if_neg (fun hmem => by
          rcases List.mem_cons.mp hmem with hh | hh
          · exact hnx hh
          · exact hne hh)]
    rw [stackSections_cons, stackSections_cons, hpx,
      ih (fun hh => hx (List.mem_cons_of_mem _ hh)) (y + pxHeight e n)]

/-! ## The claims -/

/-- C1: after `calculate_positions` and after any successful sequence of
`growSection` calls with non-negative deltas, every pair of adjacent
sections (A, B) of `ORDEM_SECOES` satisfies
`B.origin_y = A.origin_y + A.height` exactly in the stored table. -/
theorem claim_C1_stacking_invariant (t l : ℚ) (e : List String)
    (gs : List (String × ℚ)) (st : Table)
    (hnn : ∀ p ∈ gs, 0 ≤ p.2)
    (h : applyGrows gs (calculate_positions t l e) = some st) :
    stacked st :=
  (applyGrows_stacked gs _ st (calc_hasKeys t l e) (calc_stacked t l e) h).1

/-- Witness for C1: a concrete two-growth run from a concrete layout. -/
theorem claim_C1_witness :
    ∃ st, (∀ p ∈ ([("servico", (10 : ℚ)), ("tomador", 3)] :
        List (String × ℚ)), 0 ≤ p.2) ∧
      applyGrows [("servico", (10 : ℚ)), ("tomador", 3)]
        (calculate_positions 3 3 ["intermediario"]) = some st ∧
      stacked st := by
  have hs : (applyGrows [("servico", (10 : ℚ)), ("tomador", 3)]
      (calculate_positions 3 3 ["intermediario"])).isSome = true := by decide
  refine ⟨_, by decide, (Option.some_get hs).symm, ?_⟩
  exact claim_C1_stacking_invariant 3 3 ["intermediario"] _ _ (by decide)
    (Option.some_get hs).symm

/-- C2: one `growSection "servico" 10.0` call on a freshly initialized table
moves `tb_municipal` and every later section down by exactly 10.0 mm and
leaves every earlier section's origin and height — and `servico`'s own
origin — untouched. -/
theorem claim_C2_growth_frame (t l : ℚ) (e : List String) (st : Table)
    (h : growSection "servico" 10 (calculate_positions t l e) = some st) :
    yOf st "tb_municipal" =
      yOf (calculate_positions t l e) "tb_municipal" + 10 ∧
    (∀ m ∈ (["trib_federal", "valor_nfse", "totais", "info_complementar"] :
        List String),
      yOf st m = yOf (calculate_positions t l e) m + 10) ∧
    (∀ m ∈ (["info_nota", "emitente", "tomador", "intermediario"] :
        List String),
      yOf st m = yOf (calculate_positions t l e) m ∧
      hOf st m = hOf (calculate_positions t l e) m) ∧
    yOf st "servico" = yOf (calculate_positions t l e) "servico" := by
  have hidx : listIndex "servico" ORDEM_SECOES = some 4 := rfl
  have hk := calc_hasKeys t l e
  have hst := calc_stacked t l e
  refine ⟨?_, ?_, ?_, ?_⟩
  · exact grow_shift "servico" 10 _ st 4 hidx hk hst h 5 (by decide) (by decide)
  · intro m hm
    fin_cases hm
    · exact grow_shift "servico" 10 _ st 4 hidx hk hst h 6 (by decide)
        (by decide)
    · exact grow_shift "servico" 10 _ st 4 hidx hk hst h 7 (by decide)
        (by decide)
    · exact grow_shift "servico" 10 _ st 4 hidx hk hst h 8 (by decide)
        (by decide)
    · exact grow_shift "servico" 10 _ st 4 hidx hk hst h 9 (by decide)
        (by decide)
  · intro m hm
    fin_cases hm
    · exact ⟨grow_prefix_y "servico" 10 _ st 4 hidx h 0 (by decide) (by decide),
        grow_hOf_ne "servico" 10 _ st _ (by decide) h⟩
    · exact ⟨grow_prefix_y "servico" 10 _ st 4 hidx h 1 (by decide) (by decide),
        grow_hOf_ne "servico" 10 _ st _ (by decide) h⟩
    · exact ⟨grow_prefix_y "servico" 10 _ st 4 hidx h 2 (by decide) (by decide),
        grow_hOf_ne "servico" 10 _ st _ (by decide) h⟩
    · exact ⟨grow_prefix_y "servico" 10 _ st 4 hidx h 3 (by decide) (by decide),
        grow_hOf_ne "servico" 10 _ st _ (by decide) h⟩
  · exact grow_prefix_y "servico" 10 _ st 4 hidx h 4 (by decide) (by decide)

/-- Witness for C2: the concrete scenario of the spec. -/
theorem claim_C2_witness :
    ∃ st, growSection "servico" 10 (calculate_positions 3 3 []) = some st ∧
      yOf st "tb_municipal" =
        yOf (calculate_positions 3 3 []) "tb_municipal" + 10 := by
  have hs : (growSection "servico" 10
      (calculate_positions 3 3 [])).isSome = true := by decide
  exact ⟨_, (Option.some_get hs).symm,
    (claim_C2_growth_frame 3 3 [] _ (Option.some_get hs).symm).1⟩

/-- C3: growth deltas accumulate: two consecutive `growSection` calls on the
same section equal one call with the summed delta; in particular growing
`servico` by 4 then by 6 equals growing it once by 10. -/
theorem claim_C3_growth_accumulation :
    (∀ (s : String) (d1 d2 : ℚ) (ps : Table),
        (ps.lookup s).isSome = true →
        (growSection s d1 ps).bind (growSection s d2) =
          growSection s (d1 + d2) ps) ∧
    (∀ ps : Table, (ps.lookup "servico").isSome = true →
        applyGrows [("servico", 4), ("servico", 6)] ps =
          growSection "servico" 10 ps) := by
  refine ⟨fun s d1 d2 ps hsome => grow_then_grow s d1 d2 ps hsome, ?_⟩
  intro ps hsome
  rw [applyGrows_cons,
    show applyGrows [(("servico" : String), (6 : ℚ))] =
      growSection "servico" 6 from funext fun q => applyGrows_single _ q]
  rw [grow_then_grow "servico" 4 6 ps hsome,
    show (4 : ℚ) + 6 = 10 from by norm_num]

/-- Witness for C3 at a concrete table. -/
theorem claim_C3_witness :
    (growSection "servico" 4 (calculate_positions 3 3 [])).bind
        (growSection "servico" 6) =
      growSection "servico" (4 + 6) (calculate_positions 3 3 []) :=
  claim_C3_growth_accumulation.1 "servico" 4 6 _ (by decide)

/-- Shared helper for C4: the stored height of an excluded non-first section
and the origin of the section after it. -/
theorem calc_excluded_height (t l : ℚ) (e : List String)
    (i : Nat) (hi : i < ORDEM_SECOES.length) (h0 : 0 < i)
    (hmem : ORDEM_SECOES.get ⟨i, hi⟩ ∈ e) :
    hOf (calculate_positions t l e) (ORDEM_SECOES.get ⟨i, hi⟩) =
      BASE_HEIGHT * PX_TO_MM ∧
    (∀ hi1 : i + 1 < ORDEM_SECOES.length,
      yOf (calculate_positions t l e) (ORDEM_SECOES.get ⟨i + 1, hi1⟩) =
        yOf (calculate_positions t l e) (ORDEM_SECOES.get ⟨i, hi⟩) +
          BASE_HEIGHT * PX_TO_MM) := by
  have hh : hOf (calculate_positions t l e) (ORDEM_SECOES.get ⟨i, hi⟩) =
      BASE_HEIGHT * PX_TO_MM := by
    obtain ⟨j, rfl⟩ : ∃ j, i = j + 1 := ⟨i - 1, by omega⟩
    have hjt : j < ORDEM_SECOES.tail.length := by
      have h10 : ORDEM_SECOES.length = 10 := rfl
      have h9 : ORDEM_SECOES.tail.length = 9 := rfl
      omega
    have hg : ORDEM_SECOES.get ⟨j + 1, hi⟩ =
        ORDEM_SECOES.tail.get ⟨j, hjt⟩ := rfl
    rw [hg]
    unfold hOf
    rw [calc_lookup_tail t l e j hjt]
    simp only [Option.map_some', Option.getD_some]
    unfold pxHeight
    rw [if_pos (hg ▸ hmem)]
  refine ⟨hh, fun hi1 => ?_⟩
  have hstk := calc_stacked t l e i hi1
  rw [hstk, hh]

/-- C4 as stated is false on the code: with `emitente` excluded, the stored
height of `emitente` is not `BASE_HEIGHT` (it is `BASE_HEIGHT * PX_TO_MM`,
because the conversion loop scales the placeholder once more). -/
theorem claim_C4_counterexample :
    hOf (calculate_positions 3 3 ["emitente"]) "emitente" ≠ BASE_HEIGHT := by
  have h : hOf (calculate_positions 3 3 ["emitente"]) "emitente" =
      BASE_HEIGHT * PX_TO_MM :=
    (calc_excluded_height 3 3 ["emitente"] 1 (by decide) (by decide)
      (by decide)).1
  rw [h]
  norm_num [BASE_HEIGHT, PX_TO_MM]

/-- C4 (amended): an excluded non-first section's stored height equals the
placeholder `BASE_HEIGHT` scaled once more by `PX_TO_MM`, and the next
section's stored origin equals the excluded section's origin plus that stored
placeholder height (not the section's nominal height). -/
theorem claim_C4_amended_exclusion_collapse (t l : ℚ) (e : List String)
    (i : Nat) (hi : i < ORDEM_SECOES.length) (h0 : 0 < i)
    (hmem : ORDEM_SECOES.get ⟨i, hi⟩ ∈ e) :
    hOf (calculate_positions t l e) (ORDEM_SECOES.get ⟨i, hi⟩) =
      BASE_HEIGHT * PX_TO_MM ∧
    (∀ hi1 : i + 1 < ORDEM_SECOES.length,
      yOf (calculate_positions t l e) (ORDEM_SECOES.get ⟨i + 1, hi1⟩) =
        yOf (calculate_positions t l e) (ORDEM_SECOES.get ⟨i, hi⟩) +
          BASE_HEIGHT * PX_TO_MM) :=
  calc_excluded_height t l e i hi h0 hmem

/-- Witness for C4 (amended) with `emitente` excluded. -/
theorem claim_C4_witness :
    hOf (calculate_positions 3 3 ["emitente"]) "emitente" =
      BASE_HEIGHT * PX_TO_MM ∧
    yOf (calculate_positions 3 3 ["emitente"]) "tomador" =
      yOf (calculate_positions 3 3 ["emitente"]) "emitente" +
        BASE_HEIGHT * PX_TO_MM := by
  have h := claim_C4_amended_exclusion_collapse 3 3 ["emitente"] 1 (by decide)
    (by decide) (by decide)
  exact ⟨h.1, h.2 (by decide)⟩

/-- Shared helper: concrete stored header and `info_nota` values. -/
theorem calc_header_values :
    yOf (calculate_positions 3 3 []) "header" = svg_to_pdf_y 3 3 ∧
    hOf (calculate_positions 3 3 []) "header" = base_position * PX_TO_MM ∧
    yOf (calculate_positions 3 3 []) "info_nota" =
      svg_to_pdf_y base_position 3 := by
  refine ⟨?_, ?_, ?_⟩
  · unfold yOf
    rw [calc_lookup_header]
    rfl
  · unfold hOf
    rw [calc_lookup_header]
    rfl
  · unfold yOf
    rw [calc_lookup_info_nota]
    rfl

/-- C5 (code bug): at `top_margin = left_margin = 3` the stored `header`
origin is neither the page top (`0`) nor the top margin (`3`); it is the
top margin pushed through `_svg_to_pdf_y` a second time (the conversion loop
exempts only the header's height, not its `y`), and the header's origin plus
its height does not reach `info_nota`'s origin. -/
theorem claim_C5_header_backfill_bug :
    yOf (calculate_positions 3 3 []) "header" ≠ 3 ∧
    yOf (calculate_positions 3 3 []) "header" ≠ 0 ∧
    yOf (calculate_positions 3 3 []) "header" = svg_to_pdf_y 3 3 ∧
    yOf (calculate_positions 3 3 []) "header" +
        hOf (calculate_positions 3 3 []) "header" ≠
      yOf (calculate_positions 3 3 []) "info_nota" := by
  obtain ⟨h1, h2, h3⟩ := calc_header_values
  rw [h1, h2, h3]
  norm_num [svg_to_pdf_y, SVG_OFFSET_Y, PX_TO_MM, base_position]

/-- C8: the SVG-pixel to page-millimeter Y conversion round-trips exactly
over exact arithmetic. -/
theorem claim_C8_unit_roundtrip (y t : ℚ) :
    pdf_to_svg_y (svg_to_pdf_y y t) t = y := by
  unfold pdf_to_svg_y svg_to_pdf_y SVG_OFFSET_Y
  have hk : PX_TO_MM ≠ 0 := by norm_num [PX_TO_MM]
  field_simp

/-- C10: the first section of `ORDEM_SECOES` is never collapsed: the `i == 0`
branch ignores the exclusion list, so `info_nota` always gets the base
position and base height and listing `"info_nota"` in `exclude_sections`
changes no stored entry at all. -/
theorem claim_C10_first_section_never_collapsed (t l : ℚ) (e : List String) :
    calculate_positions t l ("info_nota" :: e) = calculate_positions t l e ∧
    yOf (calculate_positions t l e) "info_nota" =
      svg_to_pdf_y base_position t ∧
    hOf (calculate_positions t l e) "info_nota" =
      base_height * PX_TO_MM := by
  refine ⟨?_, ?_, ?_⟩
  · have hgl : generalLayoutPx l ("info_nota" :: e) = generalLayoutPx l e := by
      rw [generalLayoutPx_eq, generalLayoutPx_eq,
        stackSections_exclude_irrelevant l e "info_nota" ORDEM_SECOES.tail
          (by decide) _]
    rw [calculate_positions_eq, calculate_positions_eq, hgl]
  · unfold yOf
    rw [calc_lookup_info_nota]
    rfl
  · unfold hOf
    rw [calc_lookup_info_nota]
    rfl

/-- C6: unknown names fail with a not-found error rather than a silent
default: `Layout.get_section_y` yields no value for a name that is not a
registered section, and `growSection` fails for any name not in
`ORDEM_SECOES` (whatever the table). -/
theorem claim_C6_notfound (t l epw : ℚ) (e : List String) (n : String)
    (hn : n ∉ ORDEM_SECOES) :
    (n ≠ "header" → get_section_y (Layout.init l t epw e) n = none) ∧
    (∀ (d : ℚ) (ps : Table), growSection n d ps = none) := by
  constructor
  · intro hh
    have hnone : (calculate_positions t l e).lookup n = none := by
      rw [lookup_eq_none_iff_keys, map_fst_calc]
      intro hmem
      rcases List.mem_append.mp hmem with h1 | h1
      · exact hn h1
      · simp only [List.mem_singleton] at h1
        exact hh h1
    unfold get_section_y
    rw [show (Layout.init l t epw e).positions =
      calculate_positions t l e from rfl, hnone]
    rfl
  · intro d ps
    unfold growSection
    rw [(listIndex_eq_none_iff n ORDEM_SECOES).mpr hn]

/-- Witness for C6 at the unknown name `"foo"`. -/
theorem claim_C6_witness :
    get_section_y (Layout.init 3 3 204 []) "foo" = none ∧
    growSection "foo" 1 (calculate_positions 3 3 []) = none := by
  have h := claim_C6_notfound 3 3 204 [] "foo" (by decide)
  exact ⟨h.1 (by decide), h.2 1 _⟩

/-- C7: accessors are pure and idempotent: `get_tomador_title` and
`get_horizontal_line` return the incoming layout state unchanged, and a
second consecutive call returns an identical descriptor (hence identical
`(x, y)`). -/
theorem claim_C7_accessor_purity (L : Layout) (n : String) :
    (get_tomador_title L).2 = L ∧
    (get_tomador_title ((get_tomador_title L).2)).1 =
      (get_tomador_title L).1 ∧
    (get_horizontal_line L n).2 = L ∧
    (get_horizontal_line ((get_horizontal_line L n).2) n).1 =
      (get_horizontal_line L n).1 := by
  have h1 : (get_tomador_title L).2 = L := by
    unfold get_tomador_title
    cases get_section_y L "tomador" <;> rfl
  have h2 : (get_horizontal_line L n).2 = L := by
    unfold get_horizontal_line
    cases get_section_y L n
    · cases VECTOR_POSITIONS.lookup n <;> rfl
    · rfl
  refine ⟨h1, by rw [h1], h2, by rw [h2]⟩

/-- C9 as stated is false on the code: the divider's width is
`epw - left_margin`, not the effective page width `epw`. -/
theorem claim_C9_counterexample :
    ((get_horizontal_line (Layout.init 3 3 204 []) "servico").1).map
        LineElement.width ≠
      some ((Layout.init 3 3 204 []).epw) := by
  have hy : get_section_y (Layout.init 3 3 204 []) "servico" =
      some (yOf (calculate_positions 3 3 []) "servico") := by
    unfold get_section_y yOf
    rw [show (Layout.init 3 3 204 []).positions =
      calculate_positions 3 3 [] from rfl]
    cases hl : (calculate_positions 3 3 []).lookup "servico" with
    | none =>
      have := calc_hasKeys 3 3 [] "servico" (by decide)
      rw [hl] at this
      simp at this
    | some p => rfl
  unfold get_horizontal_line
  rw [hy]
  simp only [Option.map_some', ne_eq, Option.some.injEq]
  norm_num [mkLineElement, Layout.init]

/-- C9 (amended): for a registered section, the divider sits at the section's
current stored origin and spans from `x = left_margin + left_margin / 2` with
width `epw − left_margin` (with `x2 = x + width`), not the full effective
page width. -/
theorem claim_C9_amended_horizontal_rule (L : Layout) (n : String)
    (el : LineElement)
    (hreg : (L.positions.lookup n).isSome = true)
    (h : (get_horizontal_line L n).1 = some el) :
    el.y = yOf L.positions n ∧
    el.x = L.left_margin + L.left_margin / 2 ∧
    el.width = L.epw - L.left_margin ∧
    el.x2 = el.x + el.width ∧
    el.y2 = el.y ∧
    el.value = some n := by
  obtain ⟨p, hp⟩ := Option.isSome_iff_exists.mp hreg
  have hy : get_section_y L n = some p.y := by
    unfold get_section_y
    rw [hp]
    rfl
  unfold get_horizontal_line at h
  rw [hy] at h
  simp only [Option.some.injEq] at h
  subst h
  have hyv : yOf L.positions n = p.y := by
    unfold yOf
    rw [hp]
    rfl
  rw [hyv]
  exact ⟨rfl, rfl, rfl, rfl, rfl, rfl⟩

/-- Witness for C9 (amended) at a concrete layout and section. -/
theorem claim_C9_witness :
    ∃ el, (get_horizontal_line (Layout.init 3 3 204 []) "servico").1 =
        some el ∧
      el.y = yOf (Layout.init 3 3 204 []).positions "servico" ∧
      el.width = (Layout.init 3 3 204 []).epw -
        (Layout.init 3 3 204 []).left_margin := by
  have hreg : ((Layout.init 3 3 204 []).positions.lookup "servico").isSome =
      true := by
    rw [show (Layout.init 3 3 204 []).positions =
      calculate_positions 3 3 [] from rfl]
    exact calc_hasKeys 3 3 [] "servico" (by decide)
  have hs : ((get_horizontal_line (Layout.init 3 3 204 [])
      "servico").1).isSome = true := by
    obtain ⟨p, hp⟩ := Option.isSome_iff_exists.mp hreg
    have hy : get_section_y (Layout.init 3 3 204 []) "servico" = some p.y := by
      unfold get_section_y
      rw [hp]
      rfl
    unfold get_horizontal_line
    rw [hy]
    rfl
  obtain ⟨h1, h2, h3, h4, h5, h6⟩ := claim_C9_amended_horizontal_rule
    (Layout.init 3 3 204 []) "servico" _ hreg (Option.some_get hs).symm
  exact ⟨_, (Option.some_get hs).symm, h1, h3⟩

end Nfse
